import Mathlib

/-!
Verification of the Revoice dubbing pipeline core against its specification.

The definitions below are a shallow embedding of the two core subsystems:

* `src/server/dub.py` — the synthesis provider chain (`generate_tts`),
  the duration aligner (`stretch_audio` and the ratio test in `main`),
  the per-segment voice sanitization, and the track assembler
  (the fold over segments in `main`);
* `src/services/diarization-worker/app.py` — the voice catalog loader
  (`load_dynamic_voices`), the per-speaker pitch/gender/voice assignment
  loop, the 20-second audio aggregation, and the overlap aligner
  (the whisper-segment attribution loop in `diarize`).

Durations and timestamps are modelled as exact rationals (the Python code
uses floats and integer milliseconds); machine-level audio content is
abstracted to clip durations, and network responses to status oracles.
-/

namespace Revoice

/-! ## Synthesis provider chain (`src/server/dub.py`, `generate_tts`)

The primary provider call loops `for attempt in range(3)`.  A non-200
status logs; a 404 raises `ValueError("VOICE_NOT_FOUND")`; any other
non-200 on the last attempt raises a generic exception.  Both raises
happen inside the `try:` block, so they are caught by the trailing
`except Exception as e:`, which re-raises only on the last attempt and
otherwise sleeps and retries.  We model the HTTP exchange by a status
oracle mapping the attempt index to the response status, and return the
number of HTTP requests performed together with the final outcome
(`none` = success). -/

inductive TTSError where
  | voiceNotFound
  | httpError (status : Nat)
deriving DecidableEq, Repr

/-- One pass of the retry loop of `generate_tts` (dub.py lines 59-103):
`attempt` is the index of the next request (= requests made so far),
`fuel` the number of attempts left out of `max_retries = 3`. -/
def ttsLoop (status : Nat → Nat) (attempt : Nat) : Nat → Nat × Option TTSError
  | 0 => (attempt, none)
  | fuel + 1 =>
    let st := status attempt
    if st = 200 then (attempt + 1, none)
    else if fuel = 0 then
      (attempt + 1, some (if st = 404 then TTSError.voiceNotFound else TTSError.httpError st))
    else ttsLoop status (attempt + 1) fuel

/-- `generate_tts` as observed through its HTTP requests: the pair of
(number of requests issued, outcome). -/
def generate_tts (status : Nat → Nat) : Nat × Option TTSError :=
  ttsLoop status 0 3

/-! ## Duration aligner (`src/server/dub.py`, `stretch_audio` and main loop) -/

/-- The clamping performed at the top of `stretch_audio` (dub.py 118-119):
`if ratio < 0.5: ratio = 0.5` then `if ratio > 2.0: ratio = 2.0`. -/
def stretch_audio_clamp (r : ℚ) : ℚ :=
  let r1 := if r < 1/2 then 1/2 else r
  if r1 > 2 then 2 else r1

/-- Result of duration alignment for one clip: either the clip is used
unchanged, or `stretch_audio` is invoked and the effective stretch ratio
is the clamped one. -/
inductive AlignedClip where
  | unchanged
  | stretched (ratio : ℚ)
deriving DecidableEq, Repr

/-- The duration-alignment decision of the main loop (dub.py 215-222):
`ratio = current_duration / target_duration`; stretch when
`ratio > 1.05 or ratio < 0.95`, else keep the clip. -/
def alignDuration (clipDur targetDur : ℚ) : AlignedClip :=
  let ratio := clipDur / targetDur
  if ratio > 21/20 ∨ ratio < 19/20 then AlignedClip.stretched (stretch_audio_clamp ratio)
  else AlignedClip.unchanged

/-! ## Voice sanitization (`src/server/dub.py`, main loop lines 194-200) -/

/-- The designated default voice of `main` (dub.py line 158). -/
def default_voice : String := "nPczCjzI2devNBz1zQrb"

/-- Python truthiness of `seg.get(key)`: `none` models an absent key,
an empty string is falsy. -/
def pyTruthy (s : Option String) : Bool :=
  match s with
  | none => false
  | some t => t ≠ ""

/-- `seg.get('voice_id') or seg.get('voiceId') or default_voice`
(dub.py line 195). -/
def rawSegmentVoice (v1 v2 : Option String) : String :=
  if pyTruthy v1 then v1.getD ""
  else if pyTruthy v2 then v2.getD ""
  else default_voice

/-- The sanity check of dub.py lines 198-200: fall back to the default
voice when the candidate is empty, shorter than 10 characters, or
contains a space. -/
def sanitizeVoice (v1 v2 : Option String) : String :=
  let sv := rawSegmentVoice v1 v2
  if sv = "" ∨ sv.length < 10 ∨ sv.contains ' ' then default_voice else sv

/-! ## Speaker-sample aggregation
(`src/services/diarization-worker/app.py`, diarize lines 193-205)

For one speaker, the loop sums the durations of that speaker's turns
into `dur`, breaking once `dur > 20` — after the crossing turn has
already been added. -/

/-- The aggregation loop over the durations of one speaker's turns:
`dur += d; if dur > 20: break`. -/
def aggregateSpeakerDur (dur : ℚ) : List ℚ → ℚ
  | [] => dur
  | d :: rest =>
    let dur2 := dur + d
    if dur2 > 20 then dur2 else aggregateSpeakerDur dur2 rest

/-- Largest element of a duration list (0 for the empty list). -/
def maxDur (l : List ℚ) : ℚ := l.foldr max 0

/-! ## Dynamic voice catalog
(`src/services/diarization-worker/app.py`, lines 24-80) -/

/-- The two gendered voice pools. -/
structure VoicePools where
  male : List String
  female : List String
deriving DecidableEq, Repr

/-- The hardcoded fallback pools `DEFAULT_VOICES` (app.py lines 24-41). -/
def DEFAULT_VOICES : VoicePools :=
  { male := ["nPczCjzI2devNBz1zQrb", "pNInz6obpgDQGcFmaJgB", "ErXwobaYiN019PkySvjV",
             "JBFqnCBsd6RMkjVDRZzb", "IKne3meq5aSn9XLyUdCD", "onwK4e9ZLuTAKqWW03F9"],
    female := ["Xb7hH8MSUJpSbSDYk0k2", "21m00Tcm4TlvDq8ikWAM", "MF3mGyEYCl7XYWbV9V6O",
               "EXAVITQu4vr4xnSDxMaL", "XrExE9yKIg1WjnnlVkGX", "FGY2WhTYpPnrIDTdsKH5"] }

/-- One entry of `voices_list.json`: `item.get('voice_id')` and
`item.get('labels', {}).get('gender', '')`. -/
structure VoiceItem where
  voice_id : Option String
  genderLabel : Option String

/-- The collection loop of `load_dynamic_voices` (app.py lines 61-73):
keep a truthy `voice_id`, bucket by the lowercased gender label. -/
def collectVoices (items : List VoiceItem) : List String × List String :=
  items.foldl (fun acc item =>
    match item.voice_id with
    | none => acc
    | some vid =>
      if vid = "" then acc
      else
        let g := (item.genderLabel.getD "").toLower
        if g = "male" then (acc.1 ++ [vid], acc.2)
        else if g = "female" then (acc.1, acc.2 ++ [vid])
        else acc) ([], [])

/-- `load_dynamic_voices` (app.py lines 45-80) as a function of the
parsed catalog.  `none` models every failure path that leaves the pools
untouched: missing file, unreadable or malformed JSON, any raised
exception.  `some items` models `data.get('voices', [])`; an empty item
list returns early.  A gender's pool is replaced only when the freshly
collected list for that gender is non-empty (lines 75-76). -/
def load_dynamic_voices (catalog : Option (List VoiceItem)) (cur : VoicePools) : VoicePools :=
  match catalog with
  | none => cur
  | some items =>
    if items.isEmpty then cur
    else
      let nv := collectVoices items
      let cur1 := if nv.1 ≠ [] then { cur with male := nv.1 } else cur
      if nv.2 ≠ [] then { cur1 with female := nv.2 } else cur1

/-! ## Track assembler (`src/server/dub.py`, main loop lines 181-252)

A segment enters the loop with its millisecond start/end (the code's
`int(seg.get('start', 0) * 1000)` etc.), its text after stripping
(`seg.get('text', '').strip()` — the `text` field holds the already
stripped string, so the skip test `if not text` is `text = ""`), and the
outcome of the synthesis chain for it, abstracted to the duration of the
duration-aligned clip on any success path (primary, redispatched default
voice, or Edge fallback — the assembly code is identical on all three)
or total failure of every provider.  Only the length of
`combined_audio` matters for the timing claims, so the fold carries the
track length. -/

inductive SynthOutcome where
  | success (clipMs : ℤ)
  | failure
deriving DecidableEq, Repr

structure DubSegment where
  startMs : ℤ
  endMs : ℤ
  text : String
  outcome : SynthOutcome
deriving DecidableEq, Repr

/-- Target duration of a segment: `end_ms - start_ms` (dub.py line 188). -/
def targetDur (s : DubSegment) : ℤ := s.endMs - s.startMs

/-- One iteration of the assembly loop acting on the track length.
Empty (stripped) text and non-positive target duration are skipped
(lines 186, 189).  On success (both the ElevenLabs path, lines 224-227,
and the Edge fallback path, lines 244-247) gap silence is appended first
when the track is shorter than the segment start, then the clip.  On
total failure (line 252) silence of exactly the target duration is
appended, with no gap fill. -/
def assembleStep (len : ℤ) (s : DubSegment) : ℤ :=
  if s.text = "" then len
  else if targetDur s ≤ 0 then len
  else
    match s.outcome with
    | SynthOutcome.success clip => (if len < s.startMs then s.startMs else len) + clip
    | SynthOutcome.failure => len + targetDur s

/-- Track length after assembling all segments, starting from the empty
track `AudioSegment.silent(duration=0)` (line 179). -/
def assemble (segs : List DubSegment) : ℤ := segs.foldl assembleStep 0

/-- The assembly step as the specification words it for failed segments:
gap silence is appended first "exactly as for successful segments", then
silence of the target duration.  Kept separate from `assembleStep`
(which is translated from the code) for comparison. -/
def assembleStepSpec (len : ℤ) (s : DubSegment) : ℤ :=
  if s.text = "" then len
  else if targetDur s ≤ 0 then len
  else
    match s.outcome with
    | SynthOutcome.success clip => (if len < s.startMs then s.startMs else len) + clip
    | SynthOutcome.failure => (if len < s.startMs then s.startMs else len) + targetDur s

/-- Track length under the specification's wording of the failure case. -/
def assembleSpec (segs : List DubSegment) : ℤ := segs.foldl assembleStepSpec 0

/-- `chainFrom t segs` : the segments are contiguous starting at time
`t` — each segment starts exactly where the previous one ends. -/
def chainFrom : ℤ → List DubSegment → Bool
  | _, [] => true
  | t, s :: rest => s.startMs = t && chainFrom s.endMs rest

/-- A segment that contributes audio and whose successful clip (if any)
has exactly the target duration after alignment. -/
def exactSeg (s : DubSegment) : Bool :=
  ¬ s.text = "" && 0 < targetDur s &&
    (match s.outcome with
     | SynthOutcome.success clip => clip = targetDur s
     | SynthOutcome.failure => true)

/-- Sum of the target durations of a segment list. -/
def sumTargets (segs : List DubSegment) : ℤ := (segs.map targetDur).sum

/-! ## Speaker gender classification and voice allocation
(`src/services/diarization-worker/app.py`, diarize lines 190-237) -/

inductive Gender where
  | male
  | female
deriving DecidableEq, Repr

/-- Gender classification for one speaker (app.py lines 220-226): pitch 0
falls back to alternation on the running speaker count
`male_cursor + female_cursor`; otherwise the 185 Hz threshold decides. -/
def classifyGender (pitch : ℚ) (maleCursor femaleCursor : ℕ) : Gender :=
  if pitch = 0 then
    (if (maleCursor + femaleCursor) % 2 = 0 then Gender.male else Gender.female)
  else if pitch < 185 then Gender.male else Gender.female

structure SpeakerAssign where
  gender : Gender
  voice_id : String
deriving DecidableEq, Repr

/-- The per-speaker assignment loop (app.py lines 193-237), abstracted
over the pitch estimate obtained for each unique speaker (in iteration
order).  A gender's pool is indexed at `cursor % len(pool)` and that
gender's cursor then increments (lines 228-234).  Indexing is modelled
with `getD`; the Python code would raise on an empty pool, and the
theorems assume non-empty pools (which `load_dynamic_voices` guarantees). -/
def assignLoop (pools : VoicePools) : ℕ → ℕ → List ℚ → List SpeakerAssign
  | _, _, [] => []
  | mc, fc, p :: rest =>
    if classifyGender p mc fc = Gender.male then
      ⟨Gender.male, pools.male.getD (mc % pools.male.length) ""⟩ :: assignLoop pools (mc + 1) fc rest
    else
      ⟨Gender.female, pools.female.getD (fc % pools.female.length) ""⟩ :: assignLoop pools mc (fc + 1) rest

/-- The pool a gender draws from (`VOICES[gender]`, app.py line 228). -/
def poolFor (pools : VoicePools) : Gender → List String
  | Gender.male => pools.male
  | Gender.female => pools.female

/-- Number of speakers of gender `g` in an assignment list. -/
def genderCount (g : Gender) (l : List SpeakerAssign) : ℕ :=
  l.countP (fun a => decide (a.gender = g))

/-! ## Overlap aligner
(`src/services/diarization-worker/app.py`, diarize lines 164-181 and 242-278) -/

/-- A diarization turn as stored in `diar_segments`. -/
structure DiarTurn where
  speaker : String
  start : ℚ
  stop : ℚ
deriving DecidableEq, Repr

/-- A whisper transcript segment (only the timing is used by alignment). -/
structure WSeg where
  start : ℚ
  stop : ℚ
  text : String
deriving DecidableEq, Repr

/-- Temporal overlap of a segment `[ws, we]` with a turn (app.py line 250):
`max(0, min(w_end, d_end) - max(w_start, d_start))`. -/
def overlapLen (ws we : ℚ) (d : DiarTurn) : ℚ :=
  max 0 (min we d.stop - max ws d.start)

/-- Endpoint distance of a segment to a turn (app.py line 261):
`min(|w_start - d_end|, |w_end - d_start|)`. -/
def endpointDist (ws we : ℚ) (d : DiarTurn) : ℚ :=
  min |ws - d.stop| |we - d.start|

/-- The maximum-overlap scan (app.py lines 249-255): starting from
`max_overlap = 0` and the default best speaker, update whenever a turn's
overlap strictly exceeds the current maximum. -/
def overlapScan (ws we : ℚ) (acc : ℚ × String) : List DiarTurn → ℚ × String
  | [] => acc
  | d :: ds =>
    let ov := overlapLen ws we d
    overlapScan ws we (if acc.1 < ov then (ov, d.speaker) else acc) ds

/-- The nearest-turn scan of the zero-overlap branch (app.py lines
258-265): `min_dist` starts at infinity (modelled `none`), update on
strictly smaller distance. -/
def closestScan (ws we : ℚ) (acc : Option ℚ × String) : List DiarTurn → Option ℚ × String
  | [] => acc
  | d :: ds =>
    let dist := endpointDist ws we d
    let upd := match acc.1 with
      | none => true
      | some m => decide (dist < m)
    closestScan ws we (if upd then (some dist, d.speaker) else acc) ds

/-- Speaker attribution for one whisper segment (app.py lines 242-265):
the maximum-overlap turn's speaker, or — when no turn has positive
overlap and the turn list is non-empty — the nearest turn's speaker;
`fallback` is `unique_speakers[0]`. -/
def assignSpeaker (turns : List DiarTurn) (fallback : String) (ws we : ℚ) : String :=
  let r := overlapScan ws we (0, fallback) turns
  if r.1 = 0 ∧ turns ≠ [] then (closestScan ws we (none, r.2) turns).2
  else r.2

/-- The turn filter of app.py lines 165-169: turns shorter than 0.2 s are
dropped. -/
def filterTurns (raw : List DiarTurn) : List DiarTurn :=
  raw.filter (fun t => decide (¬ (t.stop - t.start < 1/5)))

/-- `sorted(list(set(...)))` over the turn speakers (app.py line 171). -/
def uniqueSpeakers (ds : List DiarTurn) : List String :=
  ((ds.map (fun d => d.speaker)).dedup).insertionSort (fun a b => a ≤ b)

/-- The alignment loop over the whisper segments (app.py lines 241-279):
each segment is attributed in input order. -/
def alignWhisper (turns : List DiarTurn) (fallback : String) (segs : List WSeg) :
    List (WSeg × String) :=
  segs.map (fun w => (w, assignSpeaker turns fallback w.start w.stop))

/-- The speaker-attribution part of `diarize`: filter the raw turns,
build the unique speaker list (substituting `["SPEAKER_00"]` when it is
empty, app.py lines 179-181), and attribute each whisper segment in
order (lines 241-278), pairing it with its speaker label. -/
def diarizeAssign (raw : List DiarTurn) (segs : List WSeg) : List (WSeg × String) :=
  let ds := filterTurns raw
  let uniq0 := uniqueSpeakers ds
  let uniq := if uniq0.isEmpty then ["SPEAKER_00"] else uniq0
  alignWhisper ds (uniq.headD "") segs

/-! ## Theorems -/

/-- Auxiliary: `maxDur` over a cons. -/
theorem maxDur_cons (d : ℚ) (l : List ℚ) : maxDur (d :: l) = max d (maxDur l) := rfl

/-- Auxiliary: the aggregation loop never overshoots 20 by more than the
largest turn duration, whatever cumulative duration ≤ 20 it starts from. -/
theorem aggregateSpeakerDur_le (ds : List ℚ) : ∀ dur : ℚ, dur ≤ 20 →
    aggregateSpeakerDur dur ds ≤ 20 + maxDur ds := by
  induction ds with
  | nil =>
    intro dur h
    simpa [aggregateSpeakerDur, maxDur] using h
  | cons d rest ih =>
    intro dur h
    simp only [aggregateSpeakerDur, maxDur_cons]
    by_cases hgt : dur + d > 20
    · rw [if_pos hgt]
      have h1 := le_max_left d (maxDur rest)
      linarith
    · rw [if_neg hgt]
      have h2 := ih (dur + d) (not_lt.mp hgt)
      have h3 := le_max_right d (maxDur rest)
      linarith

/-- C7 (counterexample): two 15-second turns of one speaker make the
aggregation loop include both (the break fires only after `dur` already
exceeds 20), so the aggregated duration is 30 s, not at most 20 s as the
claim states. -/
theorem C7_counterexample :
    aggregateSpeakerDur 0 [15, 15] = 30 ∧ ¬ aggregateSpeakerDur 0 [15, 15] ≤ 20 := by
  norm_num [aggregateSpeakerDur]

/-- C7 (amended): the per-speaker aggregation loop breaks only after the
turn that pushes the cumulative duration past 20 s has been added, so
the aggregate can exceed 20 s — but never by more than the longest
single turn: starting from 0, it is at most 20 s plus the maximum turn
duration. -/
theorem C7_amended_aggregate_bound (ds : List ℚ) :
    aggregateSpeakerDur 0 ds ≤ 20 + maxDur ds :=
  aggregateSpeakerDur_le ds 0 (by norm_num)

/-- C2: with a provider that answers HTTP 404 (unknown voice) to every
request, `generate_tts` issues 3 HTTP requests against the same voice
before the unknown-voice condition escapes — the `ValueError` raised for
a 404 is caught by the retry loop's own `except Exception` handler and
retried, contradicting the claim (and the code's comment "don't retry a
404") that an unknown-voice response is never retried against the same
voice.  Immediate escalation would mean exactly 1 request. -/
theorem C2_unknown_voice_retried_three_times :
    generate_tts (fun _ => 404) = (3, some TTSError.voiceNotFound)
    ∧ (generate_tts (fun _ => 404)).1 ≠ 1 := by decide

/-- C6: duration alignment leaves the clip unchanged exactly when the
ratio `clip_duration / target_duration` lies in [0.95, 1.05]; otherwise
the stretch collaborator is invoked with the ratio clamped to
[0.5, 2.0].  In particular ratio 1.03 leaves the clip unchanged, ratio
1.5 stretches with ratio 1.5, and ratio 3 stretches with the clamped
ratio 2. -/
theorem C6_duration_alignment (c t : ℚ) :
    (19/20 ≤ c / t ∧ c / t ≤ 21/20 → alignDuration c t = AlignedClip.unchanged)
    ∧ (c / t < 19/20 ∨ 21/20 < c / t →
        alignDuration c t = AlignedClip.stretched (stretch_audio_clamp (c / t)))
    ∧ (1/2 ≤ c / t → c / t ≤ 2 → stretch_audio_clamp (c / t) = c / t)
    ∧ (c / t = 103/100 → alignDuration c t = AlignedClip.unchanged)
    ∧ (c / t = 3/2 → alignDuration c t = AlignedClip.stretched (3/2))
    ∧ (c / t = 3 → alignDuration c t = AlignedClip.stretched 2) := by
  refine ⟨?_, ?_, ?_, ?_, ?_, ?_⟩
  · rintro ⟨h1, h2⟩
    unfold alignDuration
    rw [if_neg]
    push_neg
    exact ⟨h2, h1⟩
  · intro h
    unfold alignDuration
    rw [if_pos (h.elim Or.inr Or.inl)]
  · intro h1 h2
    unfold stretch_audio_clamp
    rw [if_neg (not_lt.mpr h1), if_neg (not_lt.mpr h2)]
  · intro h
    unfold alignDuration
    rw [h]
    norm_num
  · intro h
    unfold alignDuration
    rw [h]
    norm_num [stretch_audio_clamp]
  · intro h
    unfold alignDuration
    rw [h]
    norm_num [stretch_audio_clamp]

/-- C9: whatever the dynamic voice catalog contains — absent or
malformed (`none`), empty, or any list of items — loading it over the
hardcoded defaults leaves both gender pools non-empty; a missing catalog
changes nothing, and a catalog yielding no voices for a gender leaves
that gender's default pool in place. -/
theorem C9_catalog_preserves_nonempty_pools (catalog : Option (List VoiceItem)) :
    (load_dynamic_voices catalog DEFAULT_VOICES).male ≠ []
    ∧ (load_dynamic_voices catalog DEFAULT_VOICES).female ≠ []
    ∧ (catalog = none → load_dynamic_voices catalog DEFAULT_VOICES = DEFAULT_VOICES)
    ∧ (∀ items, catalog = some items → (collectVoices items).1 = [] →
        (load_dynamic_voices catalog DEFAULT_VOICES).male = DEFAULT_VOICES.male)
    ∧ (∀ items, catalog = some items → (collectVoices items).2 = [] →
        (load_dynamic_voices catalog DEFAULT_VOICES).female = DEFAULT_VOICES.female) := by
  cases catalog with
  | none =>
    refine ⟨by simp [load_dynamic_voices, DEFAULT_VOICES], by simp [load_dynamic_voices, DEFAULT_VOICES],
      fun _ => rfl, fun items h => Option.noConfusion h, fun items h => Option.noConfusion h⟩
  | some items =>
    refine ⟨?_, ?_, fun h => Option.noConfusion h, ?_, ?_⟩
    · simp only [load_dynamic_voices]
      split_ifs <;> simp_all [DEFAULT_VOICES]
    · simp only [load_dynamic_voices]
      split_ifs <;> simp_all [DEFAULT_VOICES]
    · intro items' h hcol
      cases h
      simp only [load_dynamic_voices]
      split_ifs <;> simp_all [DEFAULT_VOICES]
    · intro items' h hcol
      cases h
      simp only [load_dynamic_voices]
      split_ifs <;> simp_all [DEFAULT_VOICES]

/-- C10: a segment with no usable voice id under either key gets the
default voice; a supplied voice id shorter than 10 characters or
containing a space is replaced by the default voice; otherwise the
supplied id is used as is. -/
theorem C10_voice_sanitization (v1 v2 : Option String) :
    (pyTruthy v1 = false ∧ pyTruthy v2 = false → sanitizeVoice v1 v2 = default_voice)
    ∧ (∀ s, rawSegmentVoice v1 v2 = s → (s.length < 10 ∨ s.contains ' ' = true) →
        sanitizeVoice v1 v2 = default_voice)
    ∧ (∀ s, rawSegmentVoice v1 v2 = s → 10 ≤ s.length → s.contains ' ' = false →
        sanitizeVoice v1 v2 = s) := by
  refine ⟨?_, ?_, ?_⟩
  · rintro ⟨h1, h2⟩
    have hr : rawSegmentVoice v1 v2 = default_voice := by
      simp [rawSegmentVoice, h1, h2]
    simp [sanitizeVoice, hr]
  · intro s hs hc
    simp only [sanitizeVoice, hs]
    rw [if_pos (Or.inr hc)]
  · intro s hs h10 hsp
    simp only [sanitizeVoice, hs]
    rw [if_neg]
    push_neg
    refine ⟨?_, h10, by simp [hsp]⟩
    intro he
    subst he
    simp at h10

/-- C1 (counterexample): three segments, the last totally failed and
preceded by a one-second gap.  The code appends only the target-duration
silence for the failed segment, with no gap fill, yielding a 3000 ms
track; the claimed behaviour (gap silence first, exactly as for
successful segments) would yield 4000 ms. -/
theorem C1_counterexample :
    assemble [⟨0, 1000, "a", SynthOutcome.success 1000⟩,
              ⟨1000, 2000, "b", SynthOutcome.success 1000⟩,
              ⟨3000, 4000, "c", SynthOutcome.failure⟩] = 3000
    ∧ assembleSpec [⟨0, 1000, "a", SynthOutcome.success 1000⟩,
              ⟨1000, 2000, "b", SynthOutcome.success 1000⟩,
              ⟨3000, 4000, "c", SynthOutcome.failure⟩] = 4000
    ∧ assemble [⟨0, 1000, "a", SynthOutcome.success 1000⟩,
              ⟨1000, 2000, "b", SynthOutcome.success 1000⟩,
              ⟨3000, 4000, "c", SynthOutcome.failure⟩]
      ≠ assembleSpec [⟨0, 1000, "a", SynthOutcome.success 1000⟩,
              ⟨1000, 2000, "b", SynthOutcome.success 1000⟩,
              ⟨3000, 4000, "c", SynthOutcome.failure⟩] := by decide

/-- Auxiliary: over a contiguous run of contributing segments whose
successful clips exactly match their targets, the assembly fold advances
the track length by exactly the sum of target durations. -/
theorem assembleStep_chain (segs : List DubSegment) : ∀ t : ℤ,
    chainFrom t segs = true → (∀ s ∈ segs, exactSeg s = true) →
    segs.foldl assembleStep t = t + sumTargets segs := by
  induction segs with
  | nil =>
    intro t _ _
    simp [sumTargets]
  | cons s rest ih =>
    intro t hchain hexact
    have hs := hexact s (List.mem_cons_self _ _)
    have hrest := fun x hx => hexact x (List.mem_cons_of_mem _ hx)
    simp only [chainFrom, Bool.and_eq_true, decide_eq_true_eq] at hchain
    obtain ⟨h1, hchain2⟩ := hchain
    simp only [exactSeg, Bool.and_eq_true, decide_eq_true_eq] at hs
    obtain ⟨⟨htext, hpos⟩, hmatch⟩ := hs
    have step : assembleStep t s = t + targetDur s := by
      simp only [assembleStep]
      rw [if_neg htext, if_neg (not_le.mpr hpos)]
      cases houtcome : s.outcome with
      | success clip =>
        rw [houtcome] at hmatch
        simp only [decide_eq_true_eq] at hmatch
        rw [h1, if_neg (lt_irrefl t), hmatch]
      | failure => rfl
    rw [List.foldl_cons, step]
    have hend : t + targetDur s = s.endMs := by
      simp only [targetDur]
      omega
    rw [hend, ih _ hchain2 hrest]
    have hsum : sumTargets (s :: rest) = targetDur s + sumTargets rest := by
      simp [sumTargets]
    rw [hsum]
    simp only [targetDur]
    omega

/-- C1 (amended): for a totally-failed segment the Track Assembler
appends silence of exactly the segment's target duration in its place,
but — unlike for successful segments — it does not first append gap
silence; total track timing is still preserved whenever the segments
are contiguous from the track start (each segment starting exactly where
the previous one ends) and every successful clip's aligned duration
equals its target: the total duration then equals the sum of all target
durations, in particular with one totally-failed segment among three. -/
theorem C1_amended_contiguous_timing (segs : List DubSegment)
    (hchain : chainFrom 0 segs = true)
    (hexact : ∀ s ∈ segs, exactSeg s = true) :
    assemble segs = sumTargets segs := by
  simpa using assembleStep_chain segs 0 hchain hexact

/-- C1 witness: one totally-failed segment among three contiguous ones;
the track still totals 3000 ms, the sum of the target durations. -/
theorem C1_amended_witness :
    assemble [⟨0, 1000, "a", SynthOutcome.success 1000⟩,
              ⟨1000, 2500, "b", SynthOutcome.failure⟩,
              ⟨2500, 3000, "c", SynthOutcome.success 500⟩] = 3000 := by
  have h := C1_amended_contiguous_timing
    [⟨0, 1000, "a", SynthOutcome.success 1000⟩,
     ⟨1000, 2500, "b", SynthOutcome.failure⟩,
     ⟨2500, 3000, "c", SynthOutcome.success 500⟩] (by decide) (by decide)
  rw [h]
  decide

/-- Initial cursor value of a gender at the start of the loop. -/
def cursorInit (mc fc : ℕ) : Gender → ℕ
  | Gender.male => mc
  | Gender.female => fc

/-- Auxiliary: one assignment per speaker. -/
theorem assignLoop_length (pools : VoicePools) (mc fc : ℕ) (ps : List ℚ) :
    (assignLoop pools mc fc ps).length = ps.length := by
  induction ps generalizing mc fc with
  | nil => rfl
  | cons p rest ih =>
    simp only [assignLoop]
    split_ifs <;> simp [ih]

/-- Auxiliary: gender classification depends on the cursors only through
their sum. -/
theorem classifyGender_sum (p : ℚ) (a b : ℕ) :
    classifyGender p a b = classifyGender p (a + b) 0 := by
  simp [classifyGender]

/-- Junk assignment used as the default of `List.getD` (the theorems
only read indices below the length). -/
def noAssign : SpeakerAssign := ⟨Gender.male, ""⟩

/-- Auxiliary: the gender assigned to the `i`-th speaker is the
classification of its pitch with the running speaker count `mc + fc + i`. -/
theorem assignLoop_getD_gender (pools : VoicePools) :
    ∀ (ps : List ℚ) (mc fc i : ℕ), i < ps.length →
    ((assignLoop pools mc fc ps).getD i noAssign).gender
      = classifyGender (ps.getD i 0) (mc + fc + i) 0 := by
  intro ps
  induction ps with
  | nil => intro mc fc i hi; exact absurd hi (Nat.not_lt_zero i)
  | cons p rest ih =>
    intro mc fc i hi
    cases hgval : classifyGender p mc fc with
    | male =>
      cases i with
      | zero =>
        simp only [assignLoop, hgval, if_pos, List.getD_cons_zero]
        rw [Nat.add_zero, ← classifyGender_sum, hgval]
      | succ n =>
        have hn : n < rest.length := Nat.lt_of_succ_lt_succ hi
        simp only [assignLoop, hgval, if_pos, List.getD_cons_succ]
        rw [ih (mc + 1) fc n hn]
        have harith : mc + 1 + fc + n = mc + fc + (n + 1) := by omega
        rw [harith]
    | female =>
      cases i with
      | zero =>
        simp only [assignLoop, hgval, List.getD_cons_zero]
        rw [if_neg (by decide : ¬ (Gender.female = Gender.male)), List.getD_cons_zero]
        rw [Nat.add_zero, ← classifyGender_sum p mc fc, hgval]
      | succ n =>
        have hn : n < rest.length := Nat.lt_of_succ_lt_succ hi
        have harith : mc + (fc + 1) + n = mc + fc + (n + 1) := by omega
        simp only [assignLoop, hgval, List.getD_cons_succ]
        rw [if_neg (by decide : ¬ (Gender.female = Gender.male)), List.getD_cons_succ]
        rw [ih mc (fc + 1) n hn, harith]

/-- Auxiliary: `cursorInit` at the start of a job is 0 for both genders. -/
theorem cursorInit_zero (g : Gender) : cursorInit 0 0 g = 0 := by
  cases g <;> rfl

/-- Auxiliary: the voice of the `i`-th assignment indexes its gender's
pool at the gender's starting cursor plus the number of earlier
same-gender assignments, modulo the pool length. -/
theorem assignLoop_getD_voice (pools : VoicePools) :
    ∀ (ps : List ℚ) (mc fc i : ℕ), i < ps.length →
    ((assignLoop pools mc fc ps).getD i noAssign).voice_id
      = (poolFor pools ((assignLoop pools mc fc ps).getD i noAssign).gender).getD
          ((cursorInit mc fc ((assignLoop pools mc fc ps).getD i noAssign).gender
            + genderCount ((assignLoop pools mc fc ps).getD i noAssign).gender
                ((assignLoop pools mc fc ps).take i))
            % (poolFor pools ((assignLoop pools mc fc ps).getD i noAssign).gender).length) "" := by
  intro ps
  induction ps with
  | nil => intro mc fc i hi; exact absurd hi (Nat.not_lt_zero i)
  | cons p rest ih =>
    intro mc fc i hi
    cases hgval : classifyGender p mc fc with
    | male =>
      cases i with
      | zero =>
        simp only [assignLoop, hgval, if_pos, List.getD_cons_zero, List.take_zero]
        simp [genderCount, poolFor, cursorInit]
      | succ n =>
        have hn : n < rest.length := Nat.lt_of_succ_lt_succ hi
        simp only [assignLoop, hgval, if_pos, List.getD_cons_succ, List.take_succ_cons]
        rw [ih (mc + 1) fc n hn]
        cases hg : ((assignLoop pools (mc + 1) fc rest).getD n noAssign).gender with
        | male =>
          simp [genderCount, List.countP_cons, cursorInit, Nat.add_assoc, Nat.add_comm]
        | female =>
          simp [genderCount, List.countP_cons, cursorInit]
    | female =>
      cases i with
      | zero =>
        simp only [assignLoop, hgval]
        rw [if_neg (by decide : ¬ (Gender.female = Gender.male))]
        simp only [List.getD_cons_zero, List.take_zero]
        simp [genderCount, poolFor, cursorInit]
      | succ n =>
        have hn : n < rest.length := Nat.lt_of_succ_lt_succ hi
        simp only [assignLoop, hgval]
        rw [if_neg (by decide : ¬ (Gender.female = Gender.male))]
        simp only [List.getD_cons_succ, List.take_succ_cons]
        rw [ih mc (fc + 1) n hn]
        cases hg : ((assignLoop pools mc (fc + 1) rest).getD n noAssign).gender with
        | male =>
          simp [genderCount, List.countP_cons, cursorInit]
        | female =>
          simp [genderCount, List.countP_cons, cursorInit, Nat.add_assoc, Nat.add_comm]

/-- Auxiliary: the same-gender count over prefixes grows strictly when
the prefix passes an assignment of that gender. -/
theorem genderCount_take_lt (l : List SpeakerAssign) (g : Gender) (i j : ℕ)
    (hij : i < j) (hjl : j ≤ l.length) (hg : (l.getD i noAssign).gender = g) :
    genderCount g (l.take i) < genderCount g (l.take j) := by
  have hil : i < l.length := lt_of_lt_of_le hij hjl
  have hstep : genderCount g (l.take (i + 1)) = genderCount g (l.take i) + 1 := by
    rw [genderCount, genderCount, List.take_succ, List.countP_append,
      List.getElem?_eq_getElem hil]
    have : (l.getD i noAssign).gender = l[i].gender := by
      rw [List.getD_eq_getElem l noAssign hil]
    rw [this] at hg
    simp [hg]
  have hmono : genderCount g (l.take (i + 1)) ≤ genderCount g (l.take j) := by
    have hsub : (l.take (i + 1)).Sublist (l.take j) := by
      have h1 : (l.take j).take (i + 1) = l.take (i + 1) := by
        rw [List.take_take, min_eq_left (by omega : i + 1 ≤ j)]
      rw [← h1]
      exact List.take_sublist _ _
    exact hsub.countP_le _
  omega

/-- C4: voice allocation is deterministic round-robin per gender: the
`k`-th speaker of a gender (counting earlier same-gender speakers)
receives the voice at index `k mod pool_length` of that gender's pool;
distinct same-gender speakers receive distinct voices while the pool is
not exhausted (for a duplicate-free pool), and voices repeat cyclically
— equal counts modulo the pool length give the same voice, so with a
pool of size 3 the 4th same-gender speaker (count 3) gets the 1st
speaker's voice. -/
theorem C4_round_robin_allocation (pools : VoicePools) (pitches : List ℚ) (i j : ℕ)
    (hi : i < pitches.length) (hj : j < pitches.length) :
    ((assignLoop pools 0 0 pitches).getD i noAssign).voice_id
      = (poolFor pools ((assignLoop pools 0 0 pitches).getD i noAssign).gender).getD
          (genderCount ((assignLoop pools 0 0 pitches).getD i noAssign).gender
              ((assignLoop pools 0 0 pitches).take i)
            % (poolFor pools ((assignLoop pools 0 0 pitches).getD i noAssign).gender).length) ""
    ∧ (i < j →
        ((assignLoop pools 0 0 pitches).getD i noAssign).gender
          = ((assignLoop pools 0 0 pitches).getD j noAssign).gender →
        (poolFor pools ((assignLoop pools 0 0 pitches).getD i noAssign).gender).Nodup →
        genderCount ((assignLoop pools 0 0 pitches).getD j noAssign).gender
            ((assignLoop pools 0 0 pitches).take j)
          < (poolFor pools ((assignLoop pools 0 0 pitches).getD i noAssign).gender).length →
        ((assignLoop pools 0 0 pitches).getD i noAssign).voice_id
          ≠ ((assignLoop pools 0 0 pitches).getD j noAssign).voice_id)
    ∧ (((assignLoop pools 0 0 pitches).getD i noAssign).gender
          = ((assignLoop pools 0 0 pitches).getD j noAssign).gender →
        genderCount ((assignLoop pools 0 0 pitches).getD i noAssign).gender
            ((assignLoop pools 0 0 pitches).take i)
            % (poolFor pools ((assignLoop pools 0 0 pitches).getD i noAssign).gender).length
          = genderCount ((assignLoop pools 0 0 pitches).getD j noAssign).gender
              ((assignLoop pools 0 0 pitches).take j)
              % (poolFor pools ((assignLoop pools 0 0 pitches).getD j noAssign).gender).length →
        ((assignLoop pools 0 0 pitches).getD i noAssign).voice_id
          = ((assignLoop pools 0 0 pitches).getD j noAssign).voice_id) := by
  have hvi := assignLoop_getD_voice pools pitches 0 0 i hi
  have hvj := assignLoop_getD_voice pools pitches 0 0 j hj
  rw [cursorInit_zero, Nat.zero_add] at hvi hvj
  refine ⟨hvi, ?_, ?_⟩
  · intro hij hg hnodup hlt
    rw [← hg] at hlt
    rw [hvi, hvj, ← hg]
    have hki := genderCount_take_lt (assignLoop pools 0 0 pitches)
      ((assignLoop pools 0 0 pitches).getD i noAssign).gender i j hij
      (by rw [assignLoop_length]; exact le_of_lt hj) rfl
    have hkil := lt_trans hki hlt
    rw [Nat.mod_eq_of_lt hkil, Nat.mod_eq_of_lt hlt]
    rw [List.getD_eq_getElem _ "" hkil, List.getD_eq_getElem _ "" hlt]
    intro heq
    have h2 := hnodup.getElem_inj_iff.mp heq
    omega
  · intro hg hmod
    rw [hvi, hvj, ← hg]
    rw [← hg] at hmod
    rw [hmod]

/-- C4 witness: a 3-voice male pool and four male-classified speakers;
the theorem's cyclic-repetition part gives the 4th speaker the same
voice as the 1st. -/
theorem C4_round_robin_allocation_witness :
    ((assignLoop ⟨["aaaaaaaaaa", "bbbbbbbbbb", "cccccccccc"], ["dddddddddd"]⟩
        0 0 [100, 100, 100, 100]).getD 3 noAssign).voice_id
      = ((assignLoop ⟨["aaaaaaaaaa", "bbbbbbbbbb", "cccccccccc"], ["dddddddddd"]⟩
        0 0 [100, 100, 100, 100]).getD 0 noAssign).voice_id := by
  have h := (C4_round_robin_allocation
    ⟨["aaaaaaaaaa", "bbbbbbbbbb", "cccccccccc"], ["dddddddddd"]⟩
    [100, 100, 100, 100] 3 0 (by norm_num) (by norm_num)).2.2
  apply h
  · norm_num [assignLoop, classifyGender]
  · norm_num [assignLoop, classifyGender, genderCount, poolFor, List.countP_cons]

/-- C5: within one job (cursors starting at 0), a speaker with nonzero
pitch is classified male exactly when the pitch is below 185 Hz and
female otherwise; a speaker with pitch estimate 0 is classified by
alternation on the running count of speakers assigned so far — male for
an even count, female for an odd one. -/
theorem C5_gender_classification (pools : VoicePools) (pitches : List ℚ) (i : ℕ)
    (hi : i < pitches.length) :
    (pitches.getD i 0 ≠ 0 →
      ((assignLoop pools 0 0 pitches).getD i noAssign).gender
        = (if pitches.getD i 0 < 185 then Gender.male else Gender.female))
    ∧ (pitches.getD i 0 = 0 →
      ((assignLoop pools 0 0 pitches).getD i noAssign).gender
        = (if i % 2 = 0 then Gender.male else Gender.female)) := by
  have h := assignLoop_getD_gender pools pitches 0 0 i hi
  simp only [Nat.zero_add] at h
  constructor
  · intro hp
    rw [h]
    unfold classifyGender
    rw [if_neg hp]
  · intro hp
    rw [h, hp]
    simp [classifyGender]

/-- C5 witness: two speakers both with pitch 0; the first (count 0,
even) is classified male, the second (count 1, odd) female. -/
theorem C5_gender_classification_witness :
    ((assignLoop DEFAULT_VOICES 0 0 [0, 0]).getD 0 noAssign).gender = Gender.male
    ∧ ((assignLoop DEFAULT_VOICES 0 0 [0, 0]).getD 1 noAssign).gender = Gender.female := by
  constructor
  · have h := (C5_gender_classification DEFAULT_VOICES [0, 0] 0 (by norm_num)).2 (by norm_num)
    rw [h]
    decide
  · have h := (C5_gender_classification DEFAULT_VOICES [0, 0] 1 (by norm_num)).2 (by norm_num)
    rw [h]
    decide

/-- Auxiliary invariant of the maximum-overlap scan: the running maximum
never decreases, dominates every scanned turn's overlap, and the result
is either the untouched accumulator or comes from a scanned turn. -/
theorem overlapScan_inv (ws we : ℚ) :
    ∀ (ds : List DiarTurn) (acc : ℚ × String),
    acc.1 ≤ (overlapScan ws we acc ds).1
    ∧ (∀ d ∈ ds, overlapLen ws we d ≤ (overlapScan ws we acc ds).1)
    ∧ (overlapScan ws we acc ds = acc
       ∨ ∃ d ∈ ds, (overlapScan ws we acc ds).2 = d.speaker
           ∧ (overlapScan ws we acc ds).1 = overlapLen ws we d) := by
  intro ds
  induction ds with
  | nil =>
    intro acc
    exact ⟨le_refl _, by simp, Or.inl rfl⟩
  | cons d rest ih =>
    intro acc
    by_cases hlt : acc.1 < overlapLen ws we d
    · have hstep : overlapScan ws we acc (d :: rest)
          = overlapScan ws we (overlapLen ws we d, d.speaker) rest := by
        simp [overlapScan, hlt]
      obtain ⟨h1, h2, h3⟩ := ih (overlapLen ws we d, d.speaker)
      rw [hstep]
      refine ⟨le_trans (le_of_lt hlt) h1, ?_, ?_⟩
      · intro e he
        rcases List.mem_cons.mp he with rfl | he2
        · exact h1
        · exact h2 e he2
      · rcases h3 with heq | ⟨e, he, hs, hv⟩
        · exact Or.inr ⟨d, List.mem_cons_self d rest, by rw [heq], by rw [heq]⟩
        · exact Or.inr ⟨e, List.mem_cons_of_mem d he, hs, hv⟩
    · have hstep : overlapScan ws we acc (d :: rest) = overlapScan ws we acc rest := by
        simp [overlapScan, hlt]
      obtain ⟨h1, h2, h3⟩ := ih acc
      rw [hstep]
      refine ⟨h1, ?_, ?_⟩
      · intro e he
        rcases List.mem_cons.mp he with rfl | he2
        · exact le_trans (not_lt.mp hlt) h1
        · exact h2 e he2
      · rcases h3 with heq | ⟨e, he, hs, hv⟩
        · exact Or.inl heq
        · exact Or.inr ⟨e, List.mem_cons_of_mem d he, hs, hv⟩

/-- Auxiliary invariant of the nearest-turn scan: the running minimum
distance only shrinks, ends below every scanned turn's distance, and the
result is either the untouched accumulator or comes from a scanned
turn. -/
theorem closestScan_inv (ws we : ℚ) :
    ∀ (ds : List DiarTurn) (acc : Option ℚ × String),
    (∀ m, acc.1 = some m →
      ∃ m2, (closestScan ws we acc ds).1 = some m2 ∧ m2 ≤ m)
    ∧ (∀ d ∈ ds, ∃ m2, (closestScan ws we acc ds).1 = some m2
        ∧ m2 ≤ endpointDist ws we d)
    ∧ (closestScan ws we acc ds = acc
       ∨ ∃ d ∈ ds, (closestScan ws we acc ds).2 = d.speaker
           ∧ (closestScan ws we acc ds).1 = some (endpointDist ws we d)) := by
  intro ds
  induction ds with
  | nil =>
    intro acc
    exact ⟨fun m hm => ⟨m, hm, le_refl m⟩, by simp, Or.inl rfl⟩
  | cons d rest ih =>
    intro acc
    obtain ⟨o, b⟩ := acc
    cases o with
    | none =>
      have hstep : closestScan ws we (none, b) (d :: rest)
          = closestScan ws we (some (endpointDist ws we d), d.speaker) rest := by
        simp [closestScan]
      obtain ⟨i1, i2, i3⟩ := ih (some (endpointDist ws we d), d.speaker)
      rw [hstep]
      refine ⟨fun m hm => by exact absurd hm (by simp), ?_, ?_⟩
      · intro e he
        rcases List.mem_cons.mp he with rfl | he2
        · exact i1 (endpointDist ws we e) rfl
        · exact i2 e he2
      · rcases i3 with heq | ⟨e, he, hs, hv⟩
        · exact Or.inr ⟨d, List.mem_cons_self d rest, by rw [heq], by rw [heq]⟩
        · exact Or.inr ⟨e, List.mem_cons_of_mem d he, hs, hv⟩
    | some m =>
      by_cases hlt : endpointDist ws we d < m
      · have hstep : closestScan ws we (some m, b) (d :: rest)
            = closestScan ws we (some (endpointDist ws we d), d.speaker) rest := by
          simp [closestScan, hlt]
        obtain ⟨i1, i2, i3⟩ := ih (some (endpointDist ws we d), d.speaker)
        rw [hstep]
        refine ⟨?_, ?_, ?_⟩
        · intro m2 hm2
          obtain ⟨m3, hm3, hle⟩ := i1 (endpointDist ws we d) rfl
          have hmm : m2 = m := by
            simpa using hm2.symm
          exact ⟨m3, hm3, by rw [hmm]; exact le_trans hle (le_of_lt hlt)⟩
        · intro e he
          rcases List.mem_cons.mp he with rfl | he2
          · exact i1 (endpointDist ws we e) rfl
          · exact i2 e he2
        · rcases i3 with heq | ⟨e, he, hs, hv⟩
          · exact Or.inr ⟨d, List.mem_cons_self d rest, by rw [heq], by rw [heq]⟩
          · exact Or.inr ⟨e, List.mem_cons_of_mem d he, hs, hv⟩
      · have hstep : closestScan ws we (some m, b) (d :: rest)
            = closestScan ws we (some m, b) rest := by
          simp [closestScan, hlt]
        obtain ⟨i1, i2, i3⟩ := ih (some m, b)
        rw [hstep]
        refine ⟨?_, ?_, ?_⟩
        · intro m2 hm2
          have hmm : m2 = m := by
            simpa using hm2.symm
          rw [hmm]
          exact i1 m rfl
        · intro e he
          rcases List.mem_cons.mp he with rfl | he2
          · obtain ⟨m3, hm3, hle⟩ := i1 m rfl
            exact ⟨m3, hm3, le_trans hle (not_lt.mp hlt)⟩
          · exact i2 e he2
        · rcases i3 with heq | ⟨e, he, hs, hv⟩
          · exact Or.inl heq
          · exact Or.inr ⟨e, List.mem_cons_of_mem d he, hs, hv⟩

/-- Auxiliary: when some turn overlaps the segment, the attributed
speaker belongs to a turn of maximum overlap. -/
theorem assignSpeaker_max_overlap (turns : List DiarTurn) (fallback : String) (ws we : ℚ)
    (h : ∃ d ∈ turns, 0 < overlapLen ws we d) :
    ∃ d ∈ turns, assignSpeaker turns fallback ws we = d.speaker
      ∧ ∀ e ∈ turns, overlapLen ws we e ≤ overlapLen ws we d := by
  obtain ⟨d0, hd0, hpos⟩ := h
  obtain ⟨h1, h2, h3⟩ := overlapScan_inv ws we turns (0, fallback)
  have hrpos : 0 < (overlapScan ws we (0, fallback) turns).1 :=
    lt_of_lt_of_le hpos (h2 d0 hd0)
  simp only [assignSpeaker]
  rw [if_neg (fun hc => absurd (hc.1 ▸ hrpos) (lt_irrefl 0))]
  rcases h3 with heq | ⟨d, hd, hs, hv⟩
  · rw [heq] at hrpos
    exact absurd hrpos (lt_irrefl 0)
  · exact ⟨d, hd, hs, fun e he => le_trans (h2 e he) (le_of_eq hv)⟩

/-- Auxiliary: when no turn has positive overlap and the turn list is
non-empty, the attributed speaker belongs to a turn of minimum endpoint
distance. -/
theorem assignSpeaker_zero_overlap (turns : List DiarTurn) (fallback : String) (ws we : ℚ)
    (h0 : ∀ d ∈ turns, overlapLen ws we d ≤ 0) (hne : turns ≠ []) :
    ∃ d ∈ turns, assignSpeaker turns fallback ws we = d.speaker
      ∧ ∀ e ∈ turns, endpointDist ws we d ≤ endpointDist ws we e := by
  obtain ⟨h1, h2, h3⟩ := overlapScan_inv ws we turns (0, fallback)
  have hr0 : (overlapScan ws we (0, fallback) turns).1 = 0 := by
    rcases h3 with heq | ⟨d, hd, _, hv⟩
    · rw [heq]
    · have hge : (0 : ℚ) ≤ overlapLen ws we d := le_max_left 0 _
      have hle := h0 d hd
      rw [hv]
      linarith
  simp only [assignSpeaker]
  rw [if_pos ⟨hr0, hne⟩]
  obtain ⟨c1, c2, c3⟩ :=
    closestScan_inv ws we turns (none, (overlapScan ws we (0, fallback) turns).2)
  rcases c3 with heq | ⟨d, hd, hs, hv⟩
  · obtain ⟨d, hd⟩ := List.exists_mem_of_ne_nil turns hne
    obtain ⟨m2, hm2, _⟩ := c2 d hd
    rw [heq] at hm2
    exact absurd hm2 (by simp)
  · refine ⟨d, hd, hs, fun e he => ?_⟩
    obtain ⟨m2, hm2, hle⟩ := c2 e he
    rw [hv] at hm2
    have hdm : endpointDist ws we d = m2 := Option.some.inj hm2
    rw [hdm]
    exact hle

/-- Auxiliary: with a non-empty turn list the attributed speaker is
always one of the turns' speakers. -/
theorem assignSpeaker_mem (turns : List DiarTurn) (fallback : String) (ws we : ℚ)
    (hne : turns ≠ []) :
    assignSpeaker turns fallback ws we ∈ turns.map (fun d => d.speaker) := by
  by_cases hr0 : (overlapScan ws we (0, fallback) turns).1 = 0
  · simp only [assignSpeaker]
    rw [if_pos ⟨hr0, hne⟩]
    obtain ⟨c1, c2, c3⟩ :=
      closestScan_inv ws we turns (none, (overlapScan ws we (0, fallback) turns).2)
    rcases c3 with heq | ⟨d, hd, hs, _⟩
    · obtain ⟨d, hd⟩ := List.exists_mem_of_ne_nil turns hne
      obtain ⟨m2, hm2, _⟩ := c2 d hd
      rw [heq] at hm2
      exact absurd hm2 (by simp)
    · rw [hs]
      exact List.mem_map_of_mem _ hd
  · simp only [assignSpeaker]
    rw [if_neg (fun hc => hr0 hc.1)]
    obtain ⟨h1, h2, h3⟩ := overlapScan_inv ws we turns (0, fallback)
    rcases h3 with heq | ⟨d, hd, hs, _⟩
    · exact absurd (by rw [heq]) hr0
    · rw [hs]
      exact List.mem_map_of_mem _ hd

/-- Auxiliary: with no turns at all, attribution returns the fallback
label (`unique_speakers[0]`). -/
theorem assignSpeaker_nil (fallback : String) (ws we : ℚ) :
    assignSpeaker [] fallback ws we = fallback := by
  simp [assignSpeaker, overlapScan]

/-- Auxiliary: alignment emits exactly one labelled segment per input
segment. -/
theorem alignWhisper_length (turns : List DiarTurn) (fallback : String) (segs : List WSeg) :
    (alignWhisper turns fallback segs).length = segs.length :=
  List.length_map _ _

/-- Auxiliary: the `i`-th output of alignment is the `i`-th input
segment paired with its attributed speaker. -/
theorem alignWhisper_getD (turns : List DiarTurn) (fallback : String) (segs : List WSeg)
    (i : ℕ) (hi : i < segs.length) :
    (alignWhisper turns fallback segs).getD i (⟨0, 0, ""⟩, "")
      = (segs.getD i ⟨0, 0, ""⟩,
         assignSpeaker turns fallback (segs.getD i ⟨0, 0, ""⟩).start
           (segs.getD i ⟨0, 0, ""⟩).stop) := by
  have hb : i < (alignWhisper turns fallback segs).length := by
    rw [alignWhisper_length]
    exact hi
  rw [List.getD_eq_getElem _ _ hb, List.getD_eq_getElem _ _ hi]
  simp [alignWhisper]

/-- C3: each transcript segment is attributed, in input order, the
speaker of a turn maximizing the temporal overlap
`max(0, min(segment.stop, turn.stop) - max(segment.start, turn.start))`;
when no turn has positive overlap and the turn list is non-empty, the
speaker of a turn minimizing the endpoint distance
`min(|segment.start - turn.stop|, |segment.stop - turn.start|)`. -/
theorem C3_overlap_alignment (turns : List DiarTurn) (fallback : String)
    (segs : List WSeg) (i : ℕ) (hi : i < segs.length) :
    (alignWhisper turns fallback segs).length = segs.length
    ∧ (alignWhisper turns fallback segs).getD i (⟨0, 0, ""⟩, "")
        = (segs.getD i ⟨0, 0, ""⟩,
           assignSpeaker turns fallback (segs.getD i ⟨0, 0, ""⟩).start
             (segs.getD i ⟨0, 0, ""⟩).stop)
    ∧ ((∃ d ∈ turns,
          0 < overlapLen (segs.getD i ⟨0, 0, ""⟩).start (segs.getD i ⟨0, 0, ""⟩).stop d) →
        ∃ d ∈ turns,
          ((alignWhisper turns fallback segs).getD i (⟨0, 0, ""⟩, "")).2 = d.speaker
          ∧ ∀ e ∈ turns,
              overlapLen (segs.getD i ⟨0, 0, ""⟩).start (segs.getD i ⟨0, 0, ""⟩).stop e
                ≤ overlapLen (segs.getD i ⟨0, 0, ""⟩).start (segs.getD i ⟨0, 0, ""⟩).stop d)
    ∧ ((∀ d ∈ turns,
          overlapLen (segs.getD i ⟨0, 0, ""⟩).start (segs.getD i ⟨0, 0, ""⟩).stop d ≤ 0) →
        turns ≠ [] →
        ∃ d ∈ turns,
          ((alignWhisper turns fallback segs).getD i (⟨0, 0, ""⟩, "")).2 = d.speaker
          ∧ ∀ e ∈ turns,
              endpointDist (segs.getD i ⟨0, 0, ""⟩).start (segs.getD i ⟨0, 0, ""⟩).stop d
                ≤ endpointDist (segs.getD i ⟨0, 0, ""⟩).start (segs.getD i ⟨0, 0, ""⟩).stop e) := by
  have hgd := alignWhisper_getD turns fallback segs i hi
  refine ⟨alignWhisper_length turns fallback segs, hgd, ?_, ?_⟩
  · intro h
    rw [hgd]
    simpa using assignSpeaker_max_overlap turns fallback _ _ h
  · intro h0 hne
    rw [hgd]
    simpa using assignSpeaker_zero_overlap turns fallback _ _ h0 hne

/-- C3 witness: segment [5, 6] against turns A = [0, 4] and B = [8, 10]
(zero overlap everywhere, distances 1 and 2): the attribution equation of
the theorem holds at this concrete input. -/
theorem C3_overlap_alignment_witness :
    (alignWhisper [⟨"A", 0, 4⟩, ⟨"B", 8, 10⟩] "A" [⟨5, 6, "x"⟩]).getD 0 (⟨0, 0, ""⟩, "")
      = (([⟨5, 6, "x"⟩] : List WSeg).getD 0 ⟨0, 0, ""⟩,
         assignSpeaker [⟨"A", 0, 4⟩, ⟨"B", 8, 10⟩] "A"
           (([⟨5, 6, "x"⟩] : List WSeg).getD 0 ⟨0, 0, ""⟩).start
           (([⟨5, 6, "x"⟩] : List WSeg).getD 0 ⟨0, 0, ""⟩).stop) :=
  (C3_overlap_alignment [⟨"A", 0, 4⟩, ⟨"B", 8, 10⟩] "A" [⟨5, 6, "x"⟩] 0 (by simp)).2.1

/-- C8: every transcript segment receives exactly one attributed speaker
label (one output per input, in order); with a non-empty post-filter
turn set the label is a speaker of the turn set, and with an empty one
attribution does not fail — every segment gets the synthetic default
label "SPEAKER_00". -/
theorem C8_attribution_total (raw : List DiarTurn) (segs : List WSeg) :
    (diarizeAssign raw segs).length = segs.length
    ∧ ∀ i, i < segs.length →
        ((diarizeAssign raw segs).getD i (⟨0, 0, ""⟩, "")).1 = segs.getD i ⟨0, 0, ""⟩
        ∧ (filterTurns raw ≠ [] →
            ((diarizeAssign raw segs).getD i (⟨0, 0, ""⟩, "")).2
              ∈ (filterTurns raw).map (fun d => d.speaker))
        ∧ (filterTurns raw = [] →
            ((diarizeAssign raw segs).getD i (⟨0, 0, ""⟩, "")).2 = "SPEAKER_00") := by
  have hda : diarizeAssign raw segs
      = alignWhisper (filterTurns raw)
          ((if (uniqueSpeakers (filterTurns raw)).isEmpty then ["SPEAKER_00"]
            else uniqueSpeakers (filterTurns raw)).headD "") segs := rfl
  constructor
  · rw [hda]
    exact alignWhisper_length _ _ _
  · intro i hi
    have hgd := alignWhisper_getD (filterTurns raw)
      ((if (uniqueSpeakers (filterTurns raw)).isEmpty then ["SPEAKER_00"]
        else uniqueSpeakers (filterTurns raw)).headD "") segs i hi
    refine ⟨?_, ?_, ?_⟩
    · rw [hda, hgd]
    · intro hne
      rw [hda, hgd]
      simpa using assignSpeaker_mem (filterTurns raw) _ _ _ hne
    · intro hempty
      rw [hda, hgd]
      simp only [hempty]
      have hu : uniqueSpeakers ([] : List DiarTurn) = [] := rfl
      rw [hu]
      simpa using assignSpeaker_nil _ _ _

end Revoice
